import Mathlib

/-!
Verification of the flutter_cpp_bridge service helpers.

This file gives a shallow embedding of the two message-delivery variants in
src/linux/include/flutter_cpp_bridge/service_helpers.h (fcb::Queue and
fcb::CurrentValue), of the FCB_EXPORT_SYMBOLS contract adapter, and of the
projection functions get_hexa_color (src/example/linux/liba/liba.cpp) and
get_text (src/example/linux/libb/libb.cpp), and proves the testable
properties of the specification against it.

Pointer model: fcb::Queue stores messages in a std::deque, whose push_back
never invalidates references to existing elements (this guarantee is relied
on explicitly by the source, service_helpers.h lines 67-69).  We therefore
model each element as a cell tagged with a stable abstract address (a Nat
drawn from a fresh counter); push_back appends a fresh cell at the tail and
moves no existing cell, which is exactly the deque behaviour.  A C pointer
into the container is the address of a cell; dereferencing is lookup by
address, and erasure is removal of the cell, after which the address dangles.
-/

namespace FCB

/-- A cell of the pooled container: an abstract stable address paired with
the stored message. -/
abbrev Cell (T : Type) := Nat × T

/-- Addresses currently occupied by cells. -/
def addrs {T : Type} (cells : List (Cell T)) : List Nat :=
  cells.map Prod.fst

/-- Dereference an address in the container: the value of the (unique) cell
at that address, or none if the address does not belong to any cell. -/
def lookupCells {T : Type} : List (Cell T) → Nat → Option T
  | [], _ => none
  | (a, m) :: rest, p => if a = p then some m else lookupCells rest p

/-- The linear scan of fcb::Queue::release (service_helpers.h lines 84-89):
walk the container front to back, erase the first cell whose address matches
the argument, leave everything else untouched; no match means no change. -/
def eraseFirst {T : Type} : List (Cell T) → Nat → List (Cell T)
  | [], _ => []
  | (a, m) :: rest, p => if a = p then rest else (a, m) :: eraseFirst rest p

/-- fcb::Queue<T> (service_helpers.h lines 70-90): the std::deque contents,
front first, plus the fresh-address counter of the pointer model. -/
structure Queue (T : Type) where
  cells : List (Cell T)
  ctr : Nat

/-- The default-constructed (empty) queue. -/
def Queue.empty {T : Type} : Queue T := ⟨[], 0⟩

/-- fcb::Queue::push body under the lock: _q.push_back(msg).  The new cell
gets a fresh address at the tail; no existing cell moves (deque guarantee). -/
def Queue.push {T : Type} (s : Queue T) (m : T) : Queue T :=
  ⟨s.cells ++ [(s.ctr, m)], s.ctr + 1⟩

/-- fcb::Queue::next (poll, service_helpers.h lines 79-82): the address of
the front element, or none (nullptr) when the container is empty. -/
def Queue.next {T : Type} (s : Queue T) : Option Nat :=
  match s.cells with
  | [] => none
  | (a, _) :: _ => some a

/-- Dereference a polled address against the queue. -/
def Queue.lookup {T : Type} (s : Queue T) (p : Nat) : Option T :=
  lookupCells s.cells p

/-- fcb::Queue::release (service_helpers.h lines 84-89). -/
def Queue.release {T : Type} (s : Queue T) (p : Nat) : Queue T :=
  ⟨eraseFirst s.cells p, s.ctr⟩

/-- Well-formedness of the pointer model: cell addresses are pairwise
distinct and below the fresh counter.  It holds for the empty queue and is
preserved by push and release (lemmas below), so every state reachable in
the program is well formed. -/
def Queue.wf {T : Type} (s : Queue T) : Prop :=
  (addrs s.cells).Nodup ∧ ∀ a ∈ addrs s.cells, a < s.ctr

theorem addrs_nil {T : Type} : addrs ([] : List (Cell T)) = [] := rfl

theorem addrs_cons {T : Type} (a : Nat) (m : T) (rest : List (Cell T)) :
    addrs ((a, m) :: rest) = a :: addrs rest := rfl

theorem addrs_append {T : Type} (l₁ l₂ : List (Cell T)) :
    addrs (l₁ ++ l₂) = addrs l₁ ++ addrs l₂ := by
  simp [addrs]

theorem lookupCells_append_of_some {T : Type} {cells : List (Cell T)} {p : Nat}
    {v : T} (h : lookupCells cells p = some v) (l : List (Cell T)) :
    lookupCells (cells ++ l) p = some v := by
  induction cells with
  | nil => simp [lookupCells] at h
  | cons c rest ih =>
      obtain ⟨a, m⟩ := c
      by_cases hap : a = p
      · simpa [lookupCells, hap] using h
      · simp only [lookupCells, hap, if_false, List.cons_append] at h ⊢
        exact ih h

theorem eraseFirst_of_not_mem {T : Type} {cells : List (Cell T)} {p : Nat}
    (h : p ∉ addrs cells) : eraseFirst cells p = cells := by
  induction cells with
  | nil => rfl
  | cons c rest ih =>
      obtain ⟨a, m⟩ := c
      rw [addrs_cons, List.mem_cons] at h
      push_neg at h
      rw [eraseFirst, if_neg (fun e => h.1 e.symm), ih h.2]

theorem mem_addrs_eraseFirst {T : Type} {cells : List (Cell T)} {p q : Nat}
    (h : q ∈ addrs (eraseFirst cells p)) : q ∈ addrs cells := by
  induction cells with
  | nil => simpa [eraseFirst] using h
  | cons c rest ih =>
      obtain ⟨a, m⟩ := c
      rw [addrs_cons, List.mem_cons]
      by_cases hap : a = p
      · rw [eraseFirst, if_pos hap] at h
        exact Or.inr h
      · rw [eraseFirst, if_neg hap, addrs_cons, List.mem_cons] at h
        exact h.imp id ih

theorem not_mem_addrs_eraseFirst {T : Type} {cells : List (Cell T)} {p : Nat}
    (hnd : (addrs cells).Nodup) : p ∉ addrs (eraseFirst cells p) := by
  induction cells with
  | nil => simp [eraseFirst, addrs_nil]
  | cons c rest ih =>
      obtain ⟨a, m⟩ := c
      rw [addrs_cons, List.nodup_cons] at hnd
      by_cases hap : a = p
      · rw [eraseFirst, if_pos hap]
        exact fun hmem => hnd.1 (hap ▸ hmem)
      · rw [eraseFirst, if_neg hap, addrs_cons, List.mem_cons]
        push_neg
        exact ⟨fun e => hap e.symm, ih hnd.2⟩

theorem nodup_addrs_eraseFirst {T : Type} {cells : List (Cell T)} {p : Nat}
    (hnd : (addrs cells).Nodup) : (addrs (eraseFirst cells p)).Nodup := by
  induction cells with
  | nil => simpa [eraseFirst] using hnd
  | cons c rest ih =>
      obtain ⟨a, m⟩ := c
      rw [addrs_cons, List.nodup_cons] at hnd
      by_cases hap : a = p
      · rw [eraseFirst, if_pos hap]
        exact hnd.2
      · rw [eraseFirst, if_neg hap, addrs_cons, List.nodup_cons]
        exact ⟨fun hmem => hnd.1 (mem_addrs_eraseFirst hmem), ih hnd.2⟩

theorem next_mem_addrs {T : Type} {s : Queue T} {p : Nat}
    (h : s.next = some p) : p ∈ addrs s.cells := by
  obtain ⟨cells, ctr⟩ := s
  cases cells with
  | nil => simp [Queue.next] at h
  | cons c rest =>
      obtain ⟨a, m⟩ := c
      simp only [Queue.next, Option.some.injEq] at h
      rw [addrs_cons, h]
      exact List.mem_cons_self _ _

theorem Queue.wf_empty {T : Type} : (Queue.empty : Queue T).wf := by
  constructor <;> simp [Queue.empty, Queue.wf, addrs]

theorem Queue.wf_push {T : Type} {s : Queue T} (h : s.wf) (m : T) :
    (s.push m).wf := by
  obtain ⟨hnd, hlt⟩ := h
  constructor
  · rw [Queue.push, addrs_append]
    refine List.Nodup.append hnd (by simp [addrs_cons, addrs_nil]) ?_
    intro a ha hb
    have hb' : a = s.ctr := by
      simpa [addrs_cons, addrs_nil] using hb
    exact absurd (hlt a ha) (by simp [hb'])
  · intro a ha
    rw [Queue.push, addrs_append, List.mem_append] at ha
    rcases ha with ha | ha
    · exact Nat.lt_succ_of_lt (hlt a ha)
    · have ha' : a = s.ctr := by
        simpa [addrs_cons, addrs_nil] using ha
      simp [Queue.push, ha']

theorem Queue.wf_release {T : Type} {s : Queue T} (h : s.wf) (p : Nat) :
    (s.release p).wf := by
  obtain ⟨hnd, hlt⟩ := h
  exact ⟨nodup_addrs_eraseFirst hnd,
    fun a ha => hlt a (mem_addrs_eraseFirst ha)⟩

/-- C1: pooled FIFO order.  Pushing m1, m2, m3 into the empty queue and then
repeatedly polling the front and releasing the returned pointer yields m1,
then m2, then m3, and a final poll finds the queue empty. -/
theorem queue_fifo_three {T : Type} (m1 m2 m3 : T) :
    ∃ p1 p2 p3,
      (((Queue.empty.push m1).push m2).push m3).next = some p1 ∧
      (((Queue.empty.push m1).push m2).push m3).lookup p1 = some m1 ∧
      ((((Queue.empty.push m1).push m2).push m3).release p1).next = some p2 ∧
      ((((Queue.empty.push m1).push m2).push m3).release p1).lookup p2 = some m2 ∧
      (((((Queue.empty.push m1).push m2).push m3).release p1).release p2).next = some p3 ∧
      (((((Queue.empty.push m1).push m2).push m3).release p1).release p2).lookup p3 = some m3 ∧
      ((((((Queue.empty.push m1).push m2).push m3).release p1).release p2).release p3).next = none := by
  refine ⟨0, 1, 2, ?_⟩
  simp [Queue.empty, Queue.push, Queue.next, Queue.lookup, Queue.release,
    lookupCells, eraseFirst]

/-- C2: pointer stability of the pooled variant.  push_back only appends a
fresh cell at the tail (std::deque never relocates existing elements), so
every address that dereferenced to a message before a push still
dereferences to the same message afterwards; in particular the pointer
polled before push(m2) still identifies m1 after push(m2) completes. -/
theorem queue_push_pointer_stable {T : Type} (s : Queue T) (m2 : T) :
    ∀ p m1, s.lookup p = some m1 → (s.push m2).lookup p = some m1 := by
  intro p m1 h
  exact lookupCells_append_of_some h _

/-- Witness for C2 at a concrete state: in the queue holding 10 at address
0, the address 0 still dereferences to 10 after pushing 20. -/
theorem queue_push_pointer_stable_witness :
    ((Queue.empty.push 10).push 20).lookup 0 = some 10 :=
  queue_push_pointer_stable (Queue.empty.push 10) 20 0 10 (by decide)

/-- C5: release with a stale or foreign pointer.  On any well-formed queue
state, releasing an address that belongs to no current cell changes nothing
(and release returns no error value at all); releasing the same address a
second time has no further effect; and a poll after a release never returns
the released address. -/
theorem queue_release_stale_noop {T : Type} (s : Queue T) (p : Nat)
    (h : s.wf) :
    (p ∉ addrs s.cells → s.release p = s) ∧
    (s.release p).release p = s.release p ∧
    (s.release p).next ≠ some p := by
  refine ⟨?_, ?_, ?_⟩
  · intro hp
    show (⟨eraseFirst s.cells p, s.ctr⟩ : Queue T) = s
    rw [eraseFirst_of_not_mem hp]
  · show (⟨eraseFirst (eraseFirst s.cells p) p, s.ctr⟩ : Queue T)
      = ⟨eraseFirst s.cells p, s.ctr⟩
    rw [eraseFirst_of_not_mem (not_mem_addrs_eraseFirst h.1)]
  · intro hnext
    exact not_mem_addrs_eraseFirst h.1 (next_mem_addrs hnext)

/-- Witness for C5 at a concrete state: the queue holding one message at
address 0 is well formed, releasing the never-issued address 5 leaves it
unchanged, a double release of 5 is idempotent, and poll does not yield 5. -/
theorem queue_release_stale_noop_witness :
    ((5 ∉ addrs (Queue.empty.push 10).cells → (Queue.empty.push 10).release 5 = Queue.empty.push 10) ∧
     ((Queue.empty.push 10).release 5).release 5 = (Queue.empty.push 10).release 5 ∧
     ((Queue.empty.push 10).release 5).next ≠ some 5) :=
  queue_release_stale_noop (Queue.empty.push 10) 5
    ⟨by decide, by decide⟩

/-- fcb::CurrentValue<T> (service_helpers.h lines 96-115): a single slot and
a presence flag.  The C++ poll returns the fixed address of the slot when
ready and nullptr otherwise; since that address never changes, we model the
polled pointer by the value read through it. -/
structure CurrentValue (T : Type) where
  _val : T
  _ready : Bool

/-- The default-constructed state: T _val{}; _ready = false. -/
def CurrentValue.init {T : Type} [Inhabited T] : CurrentValue T :=
  ⟨default, false⟩

/-- fcb::CurrentValue::set body under the lock:
_val = val; _ready = true. -/
def CurrentValue.set {T : Type} (s : CurrentValue T) (v : T) : CurrentValue T :=
  ⟨v, true⟩

/-- fcb::CurrentValue::next (poll): the slot if ready, else none. -/
def CurrentValue.next {T : Type} (s : CurrentValue T) : Option T :=
  if s._ready then some s._val else none

/-- fcb::CurrentValue::release: ignores its pointer argument and only
clears the presence flag; the slot itself is untouched. -/
def CurrentValue.release {T : Type} (s : CurrentValue T) : CurrentValue T :=
  ⟨s._val, false⟩

/-- C3: latest-value overwrite.  From any state, set(a) then set(b) leaves
poll returning exactly b; when a and b differ, poll can never yield a
(last-write-wins, no queuing). -/
theorem currentValue_set_overwrites {T : Type} (s : CurrentValue T) (a b : T) :
    ((s.set a).set b).next = some b ∧
    (a ≠ b → ((s.set a).set b).next ≠ some a) := by
  refine ⟨rfl, fun hab hcontra => hab ?_⟩
  have : some b = some a := hcontra
  exact (Option.some.injEq _ _ ▸ this).symm

/-- Witness for C3 at concrete values: after set 1 then set 2, poll yields
2 and not 1. -/
theorem currentValue_set_overwrites_witness :
    (((CurrentValue.init.set 1).set 2).next = some 2 ∧
     ((1 : Nat) ≠ 2 → ((CurrentValue.init.set 1).set 2).next ≠ some 1)) :=
  currentValue_set_overwrites CurrentValue.init 1 2

/-- C4: presence cycle of the latest-value variant.  Poll returns the null
sentinel in the initial state; after any set it returns non-null; after a
release it returns null again until the next set; and release never
destroys or resets the stored value (only the flag changes). -/
theorem currentValue_presence_cycle {T : Type} [Inhabited T] :
    (CurrentValue.init : CurrentValue T).next = none ∧
    (∀ (s : CurrentValue T) (v : T),
      (s.set v).next = some v ∧
      (s.set v).next ≠ none ∧
      ((s.set v).release).next = none ∧
      s.release._val = s._val ∧
      s.release._ready = false) := by
  refine ⟨rfl, fun s v => ⟨rfl, by simp [CurrentValue.set, CurrentValue.next], rfl, rfl, rfl⟩⟩

/-- A pooled service as assembled by FCB_EXPORT_SYMBOLS (service_helpers.h
lines 130-140) around a global fcb::Queue: the ServiceBase stop flag and
the registered notification callback pointer (modelled by whether one is
registered, since notify only checks it for null before calling), plus the
queue contents. -/
structure PooledService (T : Type) where
  q : Queue T
  stop_flag : Bool
  notify_cb : Bool

/-- start_service of the macro: it first stores false to the stop flag and
only then constructs the detached producer thread.  The second component is
the value of stopped() that the freshly launched producer loop observes at
launch, read from the state after the store. -/
def PooledService.start {T : Type} (s : PooledService T) :
    PooledService T × Bool :=
  let s1 : PooledService T := { s with stop_flag := false }
  (s1, s1.stop_flag)

/-- stop_service of the macro: stop_flag.store(true) and nothing else. -/
def PooledService.stop {T : Type} (s : PooledService T) : PooledService T :=
  { s with stop_flag := true }

/-- get_next_message of the macro: delegates to Queue::next. -/
def PooledService.get_next {T : Type} (s : PooledService T) : Option Nat :=
  s.q.next

/-- free_message of the macro: delegates to Queue::release. -/
def PooledService.free {T : Type} (s : PooledService T) (p : Nat) :
    PooledService T :=
  { s with q := s.q.release p }

/-- Queue::push as run by the producer through the service: mutate the
container under the lock, release the lock, then notify().  The second
component records whether the callback was invoked (notify calls it exactly
when one is registered); the callback runs against the first component, the
state in which the mutation is already visible. -/
def PooledService.push {T : Type} (s : PooledService T) (m : T) :
    PooledService T × Bool :=
  ({ s with q := s.q.push m }, s.notify_cb)

/-- A sequence of N pushes, accumulating the number of notifier
invocations. -/
def pushAll {T : Type} (s : PooledService T) : List T → PooledService T × Nat
  | [] => (s, 0)
  | m :: rest =>
      let r := s.push m
      let r2 := pushAll r.1 rest
      (r2.1, (if r.2 then 1 else 0) + r2.2)

/-- A latest-value service as assembled by FCB_EXPORT_SYMBOLS around a
global fcb::CurrentValue. -/
structure CVService (T : Type) where
  cv : CurrentValue T
  stop_flag : Bool
  notify_cb : Bool

/-- start_service for the latest-value service: clear the stop flag, then
launch; second component is the stopped() value the new loop observes. -/
def CVService.start {T : Type} (s : CVService T) : CVService T × Bool :=
  let s1 : CVService T := { s with stop_flag := false }
  (s1, s1.stop_flag)

/-- stop_service for the latest-value service. -/
def CVService.stop {T : Type} (s : CVService T) : CVService T :=
  { s with stop_flag := true }

/-- CurrentValue::set as run by the producer: mutate, then notify; the
second component records whether the callback fired. -/
def CVService.set_svc {T : Type} (s : CVService T) (v : T) :
    CVService T × Bool :=
  ({ s with cv := s.cv.set v }, s.notify_cb)

/-- A sequence of N sets, accumulating the number of notifier
invocations. -/
def setAll {T : Type} (s : CVService T) : List T → CVService T × Nat
  | [] => (s, 0)
  | v :: rest =>
      let r := s.set_svc v
      let r2 := setAll r.1 rest
      (r2.1, (if r.2 then 1 else 0) + r2.2)

/-- C6: start clears the stop flag before launching the producer.  For both
variants and from any prior state, including one left by a completed stop,
the freshly launched production loop observes stopped() as false, the
post-start state has the flag cleared, and start touches nothing else. -/
theorem start_clears_stop_flag {T : Type} :
    (∀ s : PooledService T,
      (s.stop.start).2 = false ∧
      (s.start).2 = false ∧
      (s.start).1.stop_flag = false ∧
      (s.start).1.q = s.q ∧
      (s.start).1.notify_cb = s.notify_cb) ∧
    (∀ t : CVService T,
      (t.stop.start).2 = false ∧
      (t.start).2 = false ∧
      (t.start).1.stop_flag = false ∧
      (t.start).1.cv = t.cv ∧
      (t.start).1.notify_cb = t.notify_cb) :=
  ⟨fun s => ⟨rfl, rfl, rfl, rfl, rfl⟩, fun t => ⟨rfl, rfl, rfl, rfl, rfl⟩⟩

/-- C7: stop does not clear state.  stop_service only stores true to the
stop flag: the queue contents, the registered notifier, and (for the
latest-value variant) the slot and ready flag are unchanged, so a poll
right after stop on a non-empty pooled queue still returns the existing
front item. -/
theorem stop_preserves_queue_state {T : Type} (s : PooledService T)
    (h : s.q.cells ≠ []) :
    s.stop.q = s.q ∧
    s.stop.notify_cb = s.notify_cb ∧
    s.stop.stop_flag = true ∧
    s.stop.get_next = s.get_next ∧
    s.stop.get_next ≠ none ∧
    (∀ t : CVService T, t.stop.cv = t.cv ∧ t.stop.notify_cb = t.notify_cb) := by
  refine ⟨rfl, rfl, rfl, rfl, ?_, fun t => ⟨rfl, rfl⟩⟩
  obtain ⟨⟨cells, ctr⟩, flag, cb⟩ := s
  cases cells with
  | nil => exact absurd rfl h
  | cons c rest =>
      obtain ⟨a, m⟩ := c
      simp [PooledService.stop, PooledService.get_next, Queue.next]

/-- Witness for C7 at a concrete non-empty service state. -/
theorem stop_preserves_queue_state_witness :
    ((⟨Queue.empty.push 10, false, true⟩ : PooledService Nat).stop.q
        = (⟨Queue.empty.push 10, false, true⟩ : PooledService Nat).q ∧
     (⟨Queue.empty.push 10, false, true⟩ : PooledService Nat).stop.notify_cb = true ∧
     (⟨Queue.empty.push 10, false, true⟩ : PooledService Nat).stop.stop_flag = true ∧
     (⟨Queue.empty.push 10, false, true⟩ : PooledService Nat).stop.get_next
        = (⟨Queue.empty.push 10, false, true⟩ : PooledService Nat).get_next ∧
     (⟨Queue.empty.push 10, false, true⟩ : PooledService Nat).stop.get_next ≠ none ∧
     (∀ t : CVService Nat, t.stop.cv = t.cv ∧ t.stop.notify_cb = t.notify_cb)) :=
  stop_preserves_queue_state (⟨Queue.empty.push 10, false, true⟩ : PooledService Nat)
    (by decide)

theorem lookupCells_append_fresh {T : Type} {cells : List (Cell T)} {c : Nat}
    (h : c ∉ addrs cells) (m : T) :
    lookupCells (cells ++ [(c, m)]) c = some m := by
  induction cells with
  | nil => simp [lookupCells]
  | cons cell rest ih =>
      obtain ⟨a, m'⟩ := cell
      rw [addrs_cons, List.mem_cons] at h
      push_neg at h
      rw [List.cons_append, lookupCells, if_neg (fun e => h.1 e.symm)]
      exact ih h.2

theorem next_ne_none_of_cells_ne_nil {T : Type} {s : Queue T}
    (h : s.cells ≠ []) : s.next ≠ none := by
  obtain ⟨cells, ctr⟩ := s
  cases cells with
  | nil => exact absurd rfl h
  | cons c rest =>
      obtain ⟨a, m⟩ := c
      simp [Queue.next]

theorem pushAll_count {T : Type} (ms : List T) (s : PooledService T) :
    (pushAll s ms).1.notify_cb = s.notify_cb ∧
    (pushAll s ms).2 = if s.notify_cb then ms.length else 0 := by
  induction ms generalizing s with
  | nil => exact ⟨rfl, by simp [pushAll]⟩
  | cons m rest ih =>
      have hcb : (s.push m).1.notify_cb = s.notify_cb := rfl
      obtain ⟨ih1, ih2⟩ := ih (s.push m).1
      refine ⟨by rw [pushAll]; exact hcb ▸ ih1, ?_⟩
      rw [pushAll]
      show (if (s.push m).2 then 1 else 0) + (pushAll (s.push m).1 rest).2
        = if s.notify_cb then rest.length + 1 else 0
      rw [ih2, hcb]
      show (if s.notify_cb then 1 else 0) + (if s.notify_cb then rest.length else 0)
        = if s.notify_cb then rest.length + 1 else 0
      cases s.notify_cb <;> simp [Nat.add_comm]

theorem setAll_count {T : Type} (vs : List T) (t : CVService T) :
    (setAll t vs).1.notify_cb = t.notify_cb ∧
    (setAll t vs).2 = if t.notify_cb then vs.length else 0 := by
  induction vs generalizing t with
  | nil => exact ⟨rfl, by simp [setAll]⟩
  | cons v rest ih =>
      have hcb : (t.set_svc v).1.notify_cb = t.notify_cb := rfl
      obtain ⟨ih1, ih2⟩ := ih (t.set_svc v).1
      refine ⟨by rw [setAll]; exact hcb ▸ ih1, ?_⟩
      rw [setAll]
      show (if (t.set_svc v).2 then 1 else 0) + (setAll (t.set_svc v).1 rest).2
        = if t.notify_cb then rest.length + 1 else 0
      rw [ih2, hcb]
      show (if t.notify_cb then 1 else 0) + (if t.notify_cb then rest.length else 0)
        = if t.notify_cb then rest.length + 1 else 0
      cases t.notify_cb <;> simp [Nat.add_comm]

/-- C8: notifier firing.  With a callback registered, N pushes (pooled) or
N sets (latest-value) invoke the notifier exactly N times, once per call;
with none registered it is never invoked.  Each single push or set hands
the callback the state in which the mutation is already visible: poll there
is non-null, the freshly pushed cell dereferences to the pushed message (on
any well-formed state), a drained consumer polling from the callback gets a
pointer identifying exactly the just-pushed message, and for the
latest-value variant poll at notification time returns the just-set
value. -/
theorem notifier_fires_per_push {T : Type} :
    (∀ (s : PooledService T) (ms : List T),
      (s.notify_cb = true → (pushAll s ms).2 = ms.length) ∧
      (s.notify_cb = false → (pushAll s ms).2 = 0)) ∧
    (∀ (s : PooledService T) (m : T),
      (s.push m).2 = s.notify_cb ∧
      (s.push m).1.get_next ≠ none ∧
      (s.q.wf → (s.push m).1.q.lookup s.q.ctr = some m) ∧
      (s.q.cells = [] →
        (s.push m).1.get_next = some s.q.ctr ∧
        (s.push m).1.q.lookup s.q.ctr = some m)) ∧
    (∀ (t : CVService T) (vs : List T),
      (t.notify_cb = true → (setAll t vs).2 = vs.length) ∧
      (t.notify_cb = false → (setAll t vs).2 = 0)) ∧
    (∀ (t : CVService T) (v : T),
      (t.set_svc v).2 = t.notify_cb ∧
      (t.set_svc v).1.cv.next = some v) := by
  refine ⟨fun s ms => ?_, fun s m => ?_, fun t vs => ?_, fun t v => ⟨rfl, rfl⟩⟩
  · obtain ⟨-, h2⟩ := pushAll_count ms s
    exact ⟨fun hcb => by rw [h2, hcb, if_pos rfl],
           fun hcb => by rw [h2, hcb]; rfl⟩
  · refine ⟨rfl, ?_, ?_, ?_⟩
    · exact next_ne_none_of_cells_ne_nil (by simp [PooledService.push, Queue.push])
    · intro hwf
      have hctr : s.q.ctr ∉ addrs s.q.cells :=
        fun hmem => absurd (hwf.2 _ hmem) (Nat.lt_irrefl _)
      exact lookupCells_append_fresh hctr m
    · intro hnil
      constructor
      · show (s.q.push m).next = some s.q.ctr
        rw [Queue.push, hnil]
        rfl
      · show lookupCells (s.q.cells ++ [(s.q.ctr, m)]) s.q.ctr = some m
        rw [hnil]
        simp [lookupCells]
  · obtain ⟨-, h2⟩ := setAll_count vs t
    exact ⟨fun hcb => by rw [h2, hcb, if_pos rfl],
           fun hcb => by rw [h2, hcb]; rfl⟩

/-- Witness for C8 at concrete inputs: three pushes with a registered
callback fire three notifications and none when unregistered; a push onto
the drained empty queue is observed by an immediate poll; three sets fire
three notifications; a set is observed by an immediate poll. -/
theorem notifier_fires_per_push_witness :
    (pushAll (⟨Queue.empty, false, true⟩ : PooledService Nat) [1, 2, 3]).2 = 3 ∧
    (pushAll (⟨Queue.empty, false, false⟩ : PooledService Nat) [1, 2, 3]).2 = 0 ∧
    ((⟨Queue.empty, false, true⟩ : PooledService Nat).push 10).1.get_next = some 0 ∧
    ((⟨Queue.empty, false, true⟩ : PooledService Nat).push 10).1.q.lookup 0 = some 10 ∧
    (setAll (⟨CurrentValue.init, false, true⟩ : CVService Nat) [1, 2, 3]).2 = 3 ∧
    ((⟨CurrentValue.init, false, true⟩ : CVService Nat).set_svc 7).1.cv.next = some 7 := by
  refine ⟨((notifier_fires_per_push.1 _ [1, 2, 3]).1 rfl : _), ?_, ?_, ?_, ?_, ?_⟩
  · exact (notifier_fires_per_push.1 (⟨Queue.empty, false, false⟩ : PooledService Nat) [1, 2, 3]).2 rfl
  · exact ((notifier_fires_per_push.2.1 (⟨Queue.empty, false, true⟩ : PooledService Nat) 10).2.2.2 rfl).1
  · exact ((notifier_fires_per_push.2.1 (⟨Queue.empty, false, true⟩ : PooledService Nat) 10).2.2.2 rfl).2
  · exact (notifier_fires_per_push.2.2.1 (⟨CurrentValue.init, false, true⟩ : CVService Nat) [1, 2, 3]).1 rfl
  · exact (notifier_fires_per_push.2.2.2 (⟨CurrentValue.init, false, true⟩ : CVService Nat) 7).2

theorem two_pow_mul_or_eq_add {i a b : Nat} (h : b < 2 ^ i) :
    2 ^ i * a ||| b = 2 ^ i * a + b := by
  induction i generalizing a b with
  | zero =>
      have hb0 : b = 0 := by omega
      subst hb0
      simp
  | succ i ih =>
      have hx : 2 ^ (i + 1) * a = 2 * (2 ^ i * a) := by ring
      have hdiv : (2 ^ (i + 1) * a ||| b) / 2 = 2 ^ i * a ||| b / 2 := by
        rw [Nat.or_div_two, hx, Nat.mul_div_cancel_left _ (by norm_num)]
      have hpow : 2 ^ (i + 1) = 2 * 2 ^ i := by ring
      have hb2 : b / 2 < 2 ^ i := by omega
      have hrec := ih (a := a) hb2
      have hone := Nat.or_mod_two_eq_one (a := 2 ^ (i + 1) * a) (b := b)
      have hsplit := Nat.div_add_mod (2 ^ (i + 1) * a ||| b) 2
      omega

/-- get_hexa_color from liba.cpp lines 88-92, the colour projection of the
pooled example service: 0xFF << 24 | r << 16 | g << 8 | b, with the result
returned as a 32-bit unsigned integer (the trailing reduction mod 2^32
models the uint32_t return conversion of the C code). -/
def get_hexa_color (r g b : Nat) : Nat :=
  ((0xFF <<< 24) ||| (r <<< 16) ||| (g <<< 8) ||| b) % 2 ^ 32

theorem get_hexa_color_eq_sum {r g b : Nat} (hr : r < 256) (hg : g < 256)
    (hb : b < 256) :
    get_hexa_color r g b = 4278190080 + r * 65536 + g * 256 + b := by
  have h1 : (2 : Nat) ^ 8 * g ||| b = 2 ^ 8 * g + b :=
    two_pow_mul_or_eq_add (by omega)
  have h2 : (2 : Nat) ^ 16 * r ||| (2 ^ 8 * g + b)
      = 2 ^ 16 * r + (2 ^ 8 * g + b) :=
    two_pow_mul_or_eq_add (by norm_num; omega)
  have h3 : (2 : Nat) ^ 24 * 255 ||| (2 ^ 16 * r + (2 ^ 8 * g + b))
      = 2 ^ 24 * 255 + (2 ^ 16 * r + (2 ^ 8 * g + b)) :=
    two_pow_mul_or_eq_add (by norm_num; omega)
  have hsh : (0xFF <<< 24) ||| (r <<< 16) ||| (g <<< 8) ||| b
      = 2 ^ 24 * 255 ||| (2 ^ 16 * r ||| (2 ^ 8 * g ||| b)) := by
    rw [Nat.shiftLeft_eq, Nat.shiftLeft_eq, Nat.shiftLeft_eq,
      Nat.or_assoc, Nat.or_assoc, Nat.mul_comm 255, Nat.mul_comm r,
      Nat.mul_comm g]
  rw [get_hexa_color, hsh, h1, h2, h3, Nat.mod_eq_of_lt (by norm_num; omega)]
  norm_num
  omega

/-- C9: the colour packer.  For byte-valued components, get_hexa_color
computes 0xFF*2^24 + r*2^16 + g*2^8 + b exactly (no 32-bit truncation
occurs), its top byte is always 0xFF, and the three components are
recoverable, so the packer is injective on (r, g, b). -/
theorem get_hexa_color_spec (r g b : Nat) (hr : r < 256) (hg : g < 256)
    (hb : b < 256) :
    get_hexa_color r g b = 0xFF * 2 ^ 24 + r * 2 ^ 16 + g * 2 ^ 8 + b ∧
    get_hexa_color r g b / 2 ^ 24 = 0xFF ∧
    get_hexa_color r g b % 256 = b ∧
    get_hexa_color r g b / 256 % 256 = g ∧
    get_hexa_color r g b / 65536 % 256 = r ∧
    (∀ r2 g2 b2, r2 < 256 → g2 < 256 → b2 < 256 →
      get_hexa_color r g b = get_hexa_color r2 g2 b2 →
      r = r2 ∧ g = g2 ∧ b = b2) := by
  have h := get_hexa_color_eq_sum hr hg hb
  refine ⟨by rw [h]; norm_num, by rw [h]; norm_num; omega,
    by rw [h]; omega, by rw [h]; omega, by rw [h]; omega, ?_⟩
  intro r2 g2 b2 hr2 hg2 hb2 heq
  have h2 := get_hexa_color_eq_sum hr2 hg2 hb2
  rw [h, h2] at heq
  refine ⟨by omega, by omega, by omega⟩

/-- Witness for C9 at the concrete colour (1, 2, 3). -/
theorem get_hexa_color_spec_witness :
    get_hexa_color 1 2 3 = 0xFF * 2 ^ 24 + 1 * 2 ^ 16 + 2 * 2 ^ 8 + 3 ∧
    get_hexa_color 1 2 3 / 2 ^ 24 = 0xFF ∧
    get_hexa_color 1 2 3 % 256 = 3 ∧
    get_hexa_color 1 2 3 / 256 % 256 = 2 ∧
    get_hexa_color 1 2 3 / 65536 % 256 = 1 ∧
    (∀ r2 g2 b2, r2 < 256 → g2 < 256 → b2 < 256 →
      get_hexa_color 1 2 3 = get_hexa_color r2 g2 b2 →
      1 = r2 ∧ 2 = g2 ∧ 3 = b2) :=
  get_hexa_color_spec 1 2 3 (by decide) (by decide) (by decide)

/-- get_text from libb.cpp lines 82-90, the text projection of the
latest-value example service: a null pointer argument yields the literal
string "null"; any non-null argument is never dereferenced, the text of the
single global current message (ret.message) is returned instead.  The
pointer argument is modelled as Option Nat with none for nullptr. -/
def get_text (ret_message : String) (msg : Option Nat) : String :=
  match msg with
  | some _ => ret_message
  | none => "null"

/-- C10: get_text on the null pointer returns "null" rather than failing;
on any non-null pointer it returns the global current message text,
independent of which message the pointer identifies. -/
theorem get_text_spec (gmsg : String) :
    get_text gmsg none = "null" ∧
    (∀ p, get_text gmsg (some p) = gmsg) ∧
    (∀ p1 p2, get_text gmsg (some p1) = get_text gmsg (some p2)) :=
  ⟨rfl, fun _ => rfl, fun _ _ => rfl⟩

end FCB
